import Mathlib

/-!
Verification of the terminal compositor of `terminaltexteffects`
(`terminaltexteffects/utils/terminal.py`) and of the frame-producing loop of
`effects/effect_binarypath.py`, as a shallow embedding in Lean.

`width`/`height` are the terminal dimensions queried from the environment in
`Terminal._get_terminal_dimensions`; they are passed explicitly here.  The
modules `base_character` and `utils.geometry` are not among the given source
files, so the `Coord` and `EffectCharacter` record shapes are modelled from
the specification; every operation on them below is translated from
`terminal.py` or from the effect files.
-/

namespace TTE

/-- Grid coordinate.  Modelled from the spec: `Coord {row, column}` is a
1-based grid position compared by structural equality; `(0,0)` and
out-of-bounds values are representable transient states (the geometry module
is not among the given source files). -/
structure Coord where
  row : Int
  column : Int
deriving DecidableEq, Repr

/-- Output area of an effect, from `terminal.py` (`OutputArea`): `top` and
`right` bounds, with `bottom` and `left` defaulting to 1. -/
structure OutputArea where
  top : Int
  right : Int
  bottom : Int := 1
  left : Int := 1
deriving DecidableEq, Repr

/-- Modelled from the spec: `EffectCharacter` (module `base_character` is not
among the given source files).  A Character aggregates a symbol, a fixed
input coordinate assigned at decomposition, a mutable current coordinate, an
activity flag and an integer layer defaulting to 0; a Character is created
dormant, with no active Path or Scene. -/
structure EffectCharacter where
  symbol : Char
  input_coord : Coord
  current_coord : Coord
  is_active : Bool
  layer : Int
deriving DecidableEq, Repr

/-- The constructor call `EffectCharacter(symbol, column, row)` as used by
`Terminal._decompose_input`; the current coordinate starts at the input
coordinate and the character starts dormant with layer 0 (modelled from the
spec, see `EffectCharacter`). -/
def mkEffectCharacter (symbol : Char) (column row : Int) : EffectCharacter :=
  { symbol := symbol
    input_coord := { row := row, column := column }
    current_coord := { row := row, column := column }
    is_active := false
    layer := 0 }

/-- Characters treated as line boundaries by Python `str.splitlines`. -/
def isLineBreak (c : Char) : Bool :=
  c == '\n' || c == '\r' || c == '\x0b' || c == '\x0c' || c == '\x1c' ||
    c == '\x1d' || c == '\x1e' || c == '\x85' || c == '\u2028' || c == '\u2029'

/-- Python `str.splitlines` on a character list: split at line boundaries,
treating a carriage-return line-feed pair as a single boundary; a trailing
boundary does not produce an empty final line.  The accumulator holds the
current line reversed. -/
def splitlinesAux : List Char → List Char → List (List Char)
  | [], acc => if acc.isEmpty then [] else [acc.reverse]
  | '\r' :: '\n' :: rest, acc => acc.reverse :: splitlinesAux rest []
  | c :: rest, acc =>
      if isLineBreak c then acc.reverse :: splitlinesAux rest []
      else splitlinesAux rest (c :: acc)

/-- Python call `self.input_data.splitlines()` from `Terminal._decompose_input`. -/
def splitlines (s : String) : List (List Char) :=
  splitlinesAux s.toList []

/-- The line-wrapping while-loop of `Terminal._decompose_input`, with explicit
fuel: while the line is longer than the terminal width `w`, emit a chunk of
`w` characters and continue on the rest; afterwards emit the remaining line
when it is nonempty.  `none` means the fuel was exhausted (for `w = 0` the
loop of the source never terminates on a nonempty line). -/
def wrapLoop (w : Nat) : Nat → List Char → Option (List (List Char))
  | 0, line =>
    if w < line.length then none
    else if line.isEmpty then some [] else some [line]
  | fuel + 1, line =>
    if w < line.length then
      (wrapLoop w fuel (line.drop w)).map (fun rest => line.take w :: rest)
    else if line.isEmpty then some [] else some [line]

/-- Wrap one input line, with enough fuel for any width of at least 1. -/
def wrapLine (w : Nat) (line : List Char) : Option (List (List Char)) :=
  wrapLoop w line.length line

/-- The outer loop of `Terminal._decompose_input` building `wrapped_lines`. -/
def wrapLines (w : Nat) : List (List Char) → Option (List (List Char))
  | [] => some []
  | line :: rest =>
      (wrapLine w line).bind (fun cs => (wrapLines w rest).map (fun rs => cs ++ rs))

/-- The character-building loops of `Terminal._decompose_input`: one
`EffectCharacter` per non-space symbol of the wrapped lines, at column
`column + 1` and row `input_height - row`. -/
def decomposeFromWrapped (wls : List (List Char)) : List EffectCharacter :=
  (wls.enum.map (fun rl =>
    rl.2.enum.filterMap (fun cs =>
      if cs.2 ≠ ' ' then
        some (mkEffectCharacter cs.2 ((cs.1 : Int) + 1) ((wls.length : Int) - (rl.1 : Int)))
      else none))).flatten

/-- Function `Terminal._decompose_input` at terminal width `w`. -/
def decompose (s : String) (w : Nat) : Option (List EffectCharacter) :=
  (wrapLines w (splitlines s)).map decomposeFromWrapped

/-- Python list indexing: a nonnegative index must be below the length, a
negative index counts from the end; anything else raises `IndexError`,
modelled as `none`. -/
def pyIdx (n : Nat) (i : Int) : Option Nat :=
  if 0 ≤ i then (if i < (n : Int) then some i.toNat else none)
  else (if -(n : Int) ≤ i then some (i + (n : Int)).toNat else none)

/-- Python item assignment `l[i] = a`. -/
def pySet {α : Type} (l : List α) (i : Int) (a : α) : Option (List α) :=
  (pyIdx l.length i).map (fun k => l.set k a)

/-- Python `rows[i][j] = a`. -/
def pySet2 (rows : List (List Char)) (i j : Int) (a : Char) :
    Option (List (List Char)) :=
  (pyIdx rows.length i).bind (fun k =>
    (rows[k]?).bind (fun row =>
      (pySet row j a).map (fun row2 => rows.set k row2)))

/-- One step of the stamping loop of `Terminal._update_terminal_state`:
`rows[character.current_coord.row - 1][character.current_coord.column - 1] =
character.symbol` for an active character, nothing otherwise. -/
def stampOne (rows : List (List Char)) (ch : EffectCharacter) :
    Option (List (List Char)) :=
  if ch.is_active then
    pySet2 rows (ch.current_coord.row - 1) (ch.current_coord.column - 1) ch.symbol
  else some rows

/-- The stamping loop of `Terminal._update_terminal_state` over a character
list; an indexing error aborts the whole update. -/
def stampAll : List (List Char) → List EffectCharacter → Option (List (List Char))
  | rows, [] => some rows
  | rows, ch :: rest => (stampOne rows ch).bind (fun rows2 => stampAll rows2 rest)

/-- The blank `top × right` buffer built at the start of
`Terminal._update_terminal_state`; a nonpositive bound gives an empty
dimension, as Python `range` does. -/
def blankRows (area : OutputArea) : List (List Char) :=
  List.replicate area.top.toNat (List.replicate area.right.toNat ' ')

/-- Method `Terminal._update_terminal_state`: build a blank buffer and stamp every
active character's symbol at its current coordinate, in list order. -/
def updateTerminalState (area : OutputArea) (chars : List EffectCharacter) :
    Option (List (List Char)) :=
  stampAll (blankRows area) chars

/-- The compositor state built by `Terminal.__init__`. -/
structure Terminal where
  input_data : String
  width : Nat
  height : Int
  characters : List EffectCharacter
  output_area : OutputArea
  terminal_state : List (List Char)
deriving DecidableEq, Repr

/-- Constructor `Terminal.__init__` for given terminal dimensions: decompose the input,
take the maxima of the input coordinates (Python `max` raises `ValueError` on
an empty sequence, modelled as `none`), derive the output area, drop the
characters above its top row and build the initial terminal state. -/
def terminalInit (input_data : String) (width : Nat) (height : Int) :
    Option Terminal :=
  (decompose input_data width).bind (fun chars =>
    ((chars.map (fun ch => ch.input_coord.column)).max?).bind (fun input_width =>
      ((chars.map (fun ch => ch.input_coord.row)).max?).bind (fun input_height =>
        let area : OutputArea := { top := min (height - 1) input_height, right := input_width }
        let kept := chars.filter (fun ch => ch.input_coord.row ≤ area.top)
        (updateTerminalState area kept).map (fun st =>
          { input_data := input_data, width := width, height := height,
            characters := kept, output_area := area, terminal_state := st }))))

/-- The state-updating part of `Terminal.print`: recompute the terminal state
from the characters' current coordinates (the subsequent ANSI writes change
no compositor state). -/
def terminalRender (t : Terminal) : Option Terminal :=
  (updateTerminalState t.output_area t.characters).map (fun st =>
    { t with terminal_state := st })

/-- A coordinate lies inside the renderable rectangle of an output area. -/
def inBounds (area : OutputArea) (c : Coord) : Prop :=
  1 ≤ c.row ∧ c.row ≤ area.top ∧ 1 ≤ c.column ∧ c.column ≤ area.right

instance (area : OutputArea) (c : Coord) : Decidable (inBounds area c) := by
  unfold inBounds
  infer_instance

/-- The buffer cell holding the symbol rendered at 1-based coordinate
`(r, c)`. -/
def cell (rows : List (List Char)) (r c : Int) : Option Char :=
  (rows[(r - 1).toNat]?).bind (fun row => row[(c - 1).toNat]?)

/-- Reads `cell` through a possibly failed buffer update. -/
def cellOf (o : Option (List (List Char))) (r c : Int) : Option Char :=
  o.bind (fun rows => cell rows r c)

/-- The last character in list order that is active at cell `(r, c)`: the
character whose stamp survives in `updateTerminalState`. -/
def lastAt (chars : List EffectCharacter) (r c : Int) : Option EffectCharacter :=
  (chars.filter (fun ch =>
    ch.is_active && decide (ch.current_coord.row = r) &&
      decide (ch.current_coord.column = c))).getLast?

/-- Method `animate_chars` of `BinaryPathEffect`: call `tick` on every active
character (the effect keeps exactly the characters with `is_active` in its
`active_chars` list).  `tick` itself is modelled from the spec as an
arbitrary per-character update, `base_character` not being among the given
source files. -/
def tickAll (tick : EffectCharacter → EffectCharacter)
    (chars : List EffectCharacter) : List EffectCharacter :=
  chars.map (fun ch => if ch.is_active then tick ch else ch)

/-- Runs `n` iterations of the frame-producing part of the loop of
`BinaryPathEffect.run`: each iteration first renders via
`self.terminal.print()` and only then advances the characters via
`self.animate_chars()`; the list collects the rendered frames in order. -/
def runLoop (tick : EffectCharacter → EffectCharacter) (area : OutputArea) :
    List EffectCharacter → Nat → List (Option (List (List Char)))
  | _, 0 => []
  | chars, n + 1 =>
      updateTerminalState area chars :: runLoop tick area (tickAll tick chars) n

/-- Spec-side predicate for wrapping: every wrapped chunk fits in width `w`. -/
def chunksFit (w : Nat) (wls : List (List Char)) : Bool :=
  wls.all (fun l => l.length ≤ w)

/-- Spec-side count: one unit per non-space symbol of the wrapped lines. -/
def nonSpaceCount (wls : List (List Char)) : Nat :=
  (wls.map (fun l => (l.filter (fun c => decide (c ≠ ' '))).length)).sum

/-- Spec-side predicate: no space symbols and input columns within `[1, w]`. -/
def charsWellFormed (w : Nat) (chars : List EffectCharacter) : Bool :=
  chars.all (fun ch =>
    decide (ch.symbol ≠ ' ') && decide (1 ≤ ch.input_coord.column) &&
      decide (ch.input_coord.column ≤ (w : Int)))

/-- Concrete active character: symbol `A`, layer 1, at cell `(1, 1)`. -/
def chA : EffectCharacter :=
  { symbol := 'A', input_coord := ⟨1, 1⟩, current_coord := ⟨1, 1⟩,
    is_active := true, layer := 1 }

/-- Concrete active character: symbol `B`, layer 0, at cell `(1, 1)`. -/
def chB : EffectCharacter :=
  { symbol := 'B', input_coord := ⟨1, 1⟩, current_coord := ⟨1, 1⟩,
    is_active := true, layer := 0 }

/-- Concrete active character at the transient coordinate `(0, 0)`. -/
def ch00 : EffectCharacter :=
  { symbol := 'X', input_coord := ⟨1, 1⟩, current_coord := ⟨0, 0⟩,
    is_active := true, layer := 0 }

/-- Concrete active character above a two-row output area. -/
def chHigh : EffectCharacter :=
  { symbol := 'Y', input_coord := ⟨1, 1⟩, current_coord := ⟨3, 1⟩,
    is_active := true, layer := 0 }

/-- The buffer has exactly the output area's dimensions. -/
def dims (area : OutputArea) (rows : List (List Char)) : Prop :=
  rows.length = area.top.toNat ∧ ∀ row ∈ rows, row.length = area.right.toNat

/-- Concrete one-cell output area. -/
def areaOne : OutputArea := { top := 1, right := 1 }

/-- Concrete one-row, two-column output area. -/
def areaRow : OutputArea := { top := 1, right := 2 }

/-- Concrete tick function moving a character one column to the right. -/
def tickRight : EffectCharacter → EffectCharacter := fun ch =>
  { ch with current_coord := ⟨ch.current_coord.row, ch.current_coord.column + 1⟩ }

/-- The characters decomposed from the input `"AB"` at width at least 2. -/
def charsAB : List EffectCharacter :=
  [mkEffectCharacter 'A' 1 1, mkEffectCharacter 'B' 2 1]

/-- The compositor built from `"AB"` at width 80 and height 24. -/
def terminalAB : Terminal :=
  { input_data := "AB", width := 80, height := 24, characters := charsAB,
    output_area := { top := 1, right := 2 }, terminal_state := [[' ', ' ']] }

theorem wrapLoop_isSome (w : Nat) (hw : 1 ≤ w) :
    ∀ fuel line, line.length ≤ fuel + w → (wrapLoop w fuel line).isSome := by
  intro fuel
  induction fuel with
  | zero =>
    intro line hlen
    have h1 : ¬ w < line.length := by omega
    simp only [wrapLoop, h1, if_false]
    split <;> simp
  | succ n ih =>
    intro line hlen
    by_cases h1 : w < line.length
    · have h2 : (line.drop w).length ≤ n + w := by
        simp only [List.length_drop]
        omega
      have h3 := ih (line.drop w) h2
      simp only [wrapLoop, h1, if_true, Option.isSome_map']
      exact h3
    · simp only [wrapLoop, h1, if_false]
      split <;> simp

theorem wrapLine_isSome (w : Nat) (hw : 1 ≤ w) (line : List Char) :
    (wrapLine w line).isSome :=
  wrapLoop_isSome w hw line.length line (by omega)

theorem wrapLines_isSome (w : Nat) (hw : 1 ≤ w) :
    ∀ lines, (wrapLines w lines).isSome := by
  intro lines
  induction lines with
  | nil => simp [wrapLines]
  | cons line rest ih =>
    obtain ⟨cs, hcs⟩ := Option.isSome_iff_exists.mp (wrapLine_isSome w hw line)
    obtain ⟨rs, hrs⟩ := Option.isSome_iff_exists.mp ih
    simp [wrapLines, hcs, hrs]

theorem decompose_isSome (s : String) (w : Nat) (hw : 1 ≤ w) :
    (decompose s w).isSome := by
  obtain ⟨wls, hwls⟩ := Option.isSome_iff_exists.mp (wrapLines_isSome w hw (splitlines s))
  simp [decompose, hwls]

theorem wrapLoop_zero_none :
    ∀ (fuel : Nat) (line : List Char), line ≠ [] → wrapLoop 0 fuel line = none := by
  intro fuel
  induction fuel with
  | zero =>
    intro line hne
    have h1 : 0 < line.length := List.length_pos.mpr hne
    simp [wrapLoop, h1]
  | succ n ih =>
    intro line hne
    have h1 : 0 < line.length := List.length_pos.mpr hne
    simp [wrapLoop, h1, ih line hne]

/-- C10: for every input string, decomposition terminates when the terminal
width is at least 1; under that precondition the wrapping loop strictly
decreases the remaining line, while with width 0 the remaining line keeps its
length and the loop runs forever (no amount of fuel makes it finish on a
nonempty line). -/
theorem spec_C10 (s : String) (w : Nat) :
    (1 ≤ w → (decompose s w).isSome = true) ∧
    (∀ line : List Char, 1 ≤ w → w < line.length →
      (line.drop w).length < line.length) ∧
    (∀ line : List Char, (line.drop 0).length = line.length) ∧
    (∀ (fuel : Nat) (line : List Char), line ≠ [] → wrapLoop 0 fuel line = none) := by
  refine ⟨fun hw => decompose_isSome s w hw, ?_, ?_, wrapLoop_zero_none⟩
  · intro line hw hlen
    simp only [List.length_drop]
    omega
  · intro line
    simp

/-- Witness for C10 at width 1 and width 0. -/
theorem spec_C10_witness :
    (decompose "AB" 1).isSome = true ∧ wrapLoop 0 5 ['A'] = none :=
  ⟨(spec_C10 "AB" 1).1 (by decide), (spec_C10 "AB" 1).2.2.2 5 ['A'] (by decide)⟩

/-- C6: when decomposition yields no characters (the input has no non-space
character, for example the empty string), `Terminal.__init__` fails —
Python `max` raises `ValueError` on the empty coordinate list — instead of
yielding a usable compositor. -/
theorem spec_C6 (s : String) (w : Nat) (h : Int)
    (hd : decompose s w = some []) : terminalInit s w h = none := by
  unfold terminalInit
  rw [hd]
  simp

/-- Witness for C6: construction on the empty string fails. -/
theorem spec_C6_witness : terminalInit "" 80 24 = none :=
  spec_C6 "" 80 24 (by decide)

theorem wrapLoop_short (w : Nat) (fuel : Nat) (line : List Char)
    (hlen : line.length ≤ w) :
    wrapLoop w fuel line = if line.isEmpty then some [] else some [line] := by
  have h1 : ¬ w < line.length := by omega
  cases fuel <;> simp [wrapLoop, h1]

/-- C8: for the input `"AB"` and any terminal width at least 2, decomposition
yields exactly the characters `A` at input coordinate `(1, 1)` and `B` at
input coordinate `(1, 2)`. -/
theorem spec_C8 (w : Nat) (hw : 2 ≤ w) :
    decompose "AB" w = some [mkEffectCharacter 'A' 1 1, mkEffectCharacter 'B' 2 1] := by
  have hs : splitlines "AB" = [['A', 'B']] := by decide
  unfold decompose
  rw [hs]
  unfold wrapLines wrapLines wrapLine
  rw [wrapLoop_short w _ ['A', 'B'] (by simpa using hw)]
  simp
  decide

/-- Witness for C8 at width 2. -/
theorem spec_C8_witness :
    decompose "AB" 2 = some [mkEffectCharacter 'A' 1 1, mkEffectCharacter 'B' 2 1] :=
  spec_C8 2 (by decide)

/-- C2: whenever `Terminal.__init__` succeeds, the output area satisfies
`top = min(terminal_height - 1, input_height)` and `right = input_width`,
where `input_height` and `input_width` are the maxima of the decomposed
characters' input rows and columns. -/
theorem spec_C2 (s : String) (w : Nat) (h : Int) (t : Terminal)
    (chars : List EffectCharacter) (iw ih : Int)
    (hd : decompose s w = some chars)
    (hiw : (chars.map (fun ch => ch.input_coord.column)).max? = some iw)
    (hih : (chars.map (fun ch => ch.input_coord.row)).max? = some ih)
    (ht : terminalInit s w h = some t) :
    t.output_area.top = min (h - 1) ih ∧ t.output_area.right = iw := by
  unfold terminalInit at ht
  rw [hd] at ht
  simp only [Option.some_bind] at ht
  rw [hiw, hih] at ht
  simp only [Option.some_bind] at ht
  obtain ⟨st, hst, hteq⟩ := Option.map_eq_some'.mp ht
  subst hteq
  exact ⟨rfl, rfl⟩

/-- Witness for C2 on the input `"AB"` at width 80 and height 24. -/
theorem spec_C2_witness :
    terminalAB.output_area.top = min ((24 : Int) - 1) 1 ∧
      terminalAB.output_area.right = 2 :=
  spec_C2 "AB" 80 24 terminalAB charsAB 2 1 (by decide) (by decide) (by decide)
    (by decide)

theorem decomposeFromWrapped_shape (wls : List (List Char)) (ch : EffectCharacter)
    (hch : ch ∈ decomposeFromWrapped wls) :
    ∃ rl : Nat × List Char, ∃ cs : Nat × Char,
      rl ∈ wls.enum ∧ cs ∈ rl.2.enum ∧ cs.2 ≠ ' ' ∧
      ch = mkEffectCharacter cs.2 ((cs.1 : Int) + 1) ((wls.length : Int) - (rl.1 : Int)) := by
  unfold decomposeFromWrapped at hch
  rw [List.mem_flatten] at hch
  obtain ⟨l, hl, hchl⟩ := hch
  rw [List.mem_map] at hl
  obtain ⟨rl, hrl, rfl⟩ := hl
  rw [List.mem_filterMap] at hchl
  obtain ⟨cs, hcs, hcseq⟩ := hchl
  by_cases hsp : cs.2 ≠ ' '
  · rw [if_pos hsp] at hcseq
    exact ⟨rl, cs, hrl, hcs, hsp, (Option.some.inj hcseq).symm⟩
  · rw [if_neg hsp] at hcseq
    cases hcseq

theorem fst_lt_of_mem_enum {α : Type} (l : List α) (x : Nat × α)
    (hx : x ∈ l.enum) : x.1 < l.length ∧ x.2 ∈ l := by
  have h1 := List.mem_enum_iff_getElem?.mp hx
  constructor
  · by_contra hcon
    rw [List.getElem?_eq_none (by omega)] at h1
    cases h1
  · exact List.getElem?_mem h1

theorem decomposeFromWrapped_facts (wls : List (List Char)) (ch : EffectCharacter)
    (hch : ch ∈ decomposeFromWrapped wls) :
    ch.is_active = false ∧ ch.symbol ≠ ' ' ∧
      1 ≤ ch.input_coord.column ∧ 1 ≤ ch.input_coord.row := by
  obtain ⟨rl, cs, hrl, hcs, hsp, rfl⟩ := decomposeFromWrapped_shape wls ch hch
  have h1 := (fst_lt_of_mem_enum wls rl hrl).1
  refine ⟨rfl, hsp, ?_, ?_⟩
  · show 1 ≤ (cs.1 : Int) + 1
    omega
  · show 1 ≤ (wls.length : Int) - (rl.1 : Int)
    omega

theorem decomposeFromWrapped_col (wls : List (List Char)) (w : Nat)
    (hfit : chunksFit w wls = true) (ch : EffectCharacter)
    (hch : ch ∈ decomposeFromWrapped wls) :
    ch.input_coord.column ≤ (w : Int) := by
  obtain ⟨rl, cs, hrl, hcs, hsp, rfl⟩ := decomposeFromWrapped_shape wls ch hch
  have h2 := fst_lt_of_mem_enum rl.2 cs hcs
  have h3 := (fst_lt_of_mem_enum wls rl hrl).2
  have h4 : rl.2.length ≤ w := by
    have := List.all_eq_true.mp hfit rl.2 h3
    exact of_decide_eq_true this
  show (cs.1 : Int) + 1 ≤ (w : Int)
  have h5 := h2.1
  omega

theorem decompose_eq (s : String) (w : Nat) (wls : List (List Char))
    (chars : List EffectCharacter)
    (hwls : wrapLines w (splitlines s) = some wls)
    (hchars : decompose s w = some chars) :
    chars = decomposeFromWrapped wls := by
  unfold decompose at hchars
  rw [hwls] at hchars
  simp only [Option.map_some'] at hchars
  exact (Option.some.inj hchars).symm

theorem wrapLoop_chunks (w : Nat) :
    ∀ (fuel : Nat) (line : List Char) (cs : List (List Char)),
      wrapLoop w fuel line = some cs → ∀ l ∈ cs, l.length ≤ w := by
  intro fuel
  induction fuel with
  | zero =>
    intro line cs hcs l hl
    by_cases h1 : w < line.length
    · simp [wrapLoop, h1] at hcs
    · simp only [wrapLoop, h1, if_false] at hcs
      split at hcs
      · cases hcs
        simp at hl
      · cases hcs
        rw [List.mem_singleton] at hl
        subst hl
        omega
  | succ n ih =>
    intro line cs hcs l hl
    by_cases h1 : w < line.length
    · simp only [wrapLoop, h1, if_true] at hcs
      rw [Option.map_eq_some'] at hcs
      obtain ⟨rest, hrest, rfl⟩ := hcs
      rcases List.mem_cons.mp hl with rfl | hl2
      · simp only [List.length_take]
        omega
      · exact ih (line.drop w) rest hrest l hl2
    · simp only [wrapLoop, h1, if_false] at hcs
      split at hcs
      · cases hcs
        simp at hl
      · cases hcs
        rw [List.mem_singleton] at hl
        subst hl
        omega

theorem wrapLines_chunks (w : Nat) :
    ∀ (lines wls : List (List Char)),
      wrapLines w lines = some wls → ∀ l ∈ wls, l.length ≤ w := by
  intro lines
  induction lines with
  | nil =>
    intro wls hw l hl
    cases hw
    simp at hl
  | cons line rest ih =>
    intro wls hw l hl
    unfold wrapLines at hw
    rw [Option.bind_eq_some] at hw
    obtain ⟨cs, hcs, h2⟩ := hw
    rw [Option.map_eq_some'] at h2
    obtain ⟨rs, hrs, rfl⟩ := h2
    rcases List.mem_append.mp hl with h3 | h3
    · exact wrapLoop_chunks w line.length line cs hcs l h3
    · exact ih rs hrs l h3

theorem length_filterMap_enumFrom (f : Nat × Char → EffectCharacter) :
    ∀ (l : List Char) (n : Nat),
      ((List.enumFrom n l).filterMap
          (fun cs => if cs.2 ≠ ' ' then some (f cs) else none)).length
        = (l.filter (fun c => decide (c ≠ ' '))).length := by
  intro l
  induction l with
  | nil => intro n; rfl
  | cons c rest ih =>
    intro n
    rw [List.enumFrom_cons]
    by_cases hc : c ≠ ' '
    · have hp : (fun x => decide (x ≠ ' ')) c = true := decide_eq_true hc
      rw [List.filterMap_cons_some (by rw [if_pos hc]),
        @List.filter_cons_of_pos Char (fun x => decide (x ≠ ' ')) c rest hp,
        List.length_cons, List.length_cons, ih (n + 1)]
    · have hp : ¬ (fun x => decide (x ≠ ' ')) c = true := by simpa using hc
      rw [List.filterMap_cons_none (by rw [if_neg hc]),
        @List.filter_cons_of_neg Char (fun x => decide (x ≠ ' ')) c rest hp]
      exact ih (n + 1)

theorem map_enum_snd {α β : Type} (l : List α) (f : Nat × α → β) (g : α → β)
    (h : ∀ x ∈ l.enum, f x = g x.2) : l.enum.map f = l.map g := by
  have h1 : l.enum.map f = l.enum.map (fun x => g x.2) := List.map_congr_left h
  rw [h1]
  have h2 : (fun x : Nat × α => g x.2) = g ∘ Prod.snd := rfl
  rw [h2, ← List.map_map]
  show (List.map Prod.snd (List.enumFrom 0 l)).map g = _
  rw [List.enumFrom_map_snd]

theorem decomposeFromWrapped_length (wls : List (List Char)) :
    (decomposeFromWrapped wls).length = nonSpaceCount wls := by
  unfold decomposeFromWrapped nonSpaceCount
  rw [List.length_flatten, List.map_map]
  congr 1
  apply map_enum_snd
  intro rl _
  exact length_filterMap_enumFrom
    (fun cs => mkEffectCharacter cs.2 ((cs.1 : Int) + 1)
      ((wls.length : Int) - (rl.1 : Int))) rl.2 0

/-- C3: for any input and any width of at least 1, wrapping produces chunks of
at most `w` characters, decomposition yields exactly one character per
non-space symbol of the wrapped lines, no character carries the space symbol,
and every input column lies in `[1, w]`. -/
theorem spec_C3 (s : String) (w : Nat) (wls : List (List Char))
    (chars : List EffectCharacter) (_hw : 1 ≤ w)
    (hwls : wrapLines w (splitlines s) = some wls)
    (hchars : decompose s w = some chars) :
    chunksFit w wls = true ∧ chars.length = nonSpaceCount wls ∧
      charsWellFormed w chars = true := by
  have hde : chars = decomposeFromWrapped wls := decompose_eq s w wls chars hwls hchars
  subst hde
  have hfit : chunksFit w wls = true := by
    apply List.all_eq_true.mpr
    intro l hl
    exact decide_eq_true (wrapLines_chunks w (splitlines s) wls hwls l hl)
  refine ⟨hfit, decomposeFromWrapped_length wls, ?_⟩
  apply List.all_eq_true.mpr
  intro ch hch
  have hf := decomposeFromWrapped_facts wls ch hch
  have hcol := decomposeFromWrapped_col wls w hfit ch hch
  simp only [Bool.and_eq_true, decide_eq_true_eq]
  exact ⟨⟨hf.2.1, hf.2.2.1⟩, hcol⟩

/-- Witness for C3 on the input `"A B"` at width 2 (wrapped as
`["A ", "B"]`). -/
theorem spec_C3_witness :
    chunksFit 2 [['A', ' '], ['B']] = true ∧
      ([mkEffectCharacter 'A' 1 2, mkEffectCharacter 'B' 1 1] :
        List EffectCharacter).length = nonSpaceCount [['A', ' '], ['B']] ∧
      charsWellFormed 2 [mkEffectCharacter 'A' 1 2, mkEffectCharacter 'B' 1 1] = true :=
  spec_C3 "A B" 2 [['A', ' '], ['B']]
    [mkEffectCharacter 'A' 1 2, mkEffectCharacter 'B' 1 1]
    (by decide) (by decide) (by decide)

theorem stampAll_inactive :
    ∀ (chars : List EffectCharacter) (rows : List (List Char)),
      (∀ ch ∈ chars, ch.is_active = false) → stampAll rows chars = some rows := by
  intro chars
  induction chars with
  | nil => intro rows _; rfl
  | cons ch rest ih =>
    intro rows hin
    have h1 : stampOne rows ch = some rows := by
      unfold stampOne
      rw [hin ch (by simp)]
      simp
    simp only [stampAll, h1, Option.some_bind]
    exact ih rows (fun c hc => hin c (by simp [hc]))

theorem terminalInit_unfold (s : String) (w : Nat) (h : Int) (t : Terminal)
    (ht : terminalInit s w h = some t) :
    ∃ chars iw ihgt st,
      decompose s w = some chars ∧
      (chars.map (fun ch => ch.input_coord.column)).max? = some iw ∧
      (chars.map (fun ch => ch.input_coord.row)).max? = some ihgt ∧
      updateTerminalState { top := min (h - 1) ihgt, right := iw }
        (chars.filter (fun ch => ch.input_coord.row ≤ min (h - 1) ihgt)) = some st ∧
      t = { input_data := s, width := w, height := h,
            characters :=
              chars.filter (fun ch => ch.input_coord.row ≤ min (h - 1) ihgt),
            output_area := { top := min (h - 1) ihgt, right := iw },
            terminal_state := st } := by
  unfold terminalInit at ht
  simp only [Option.bind_eq_some, Option.map_eq_some'] at ht
  obtain ⟨chars, hd, iw, hiw, ihgt, hih, st, hst, hteq⟩ := ht
  exact ⟨chars, iw, ihgt, st, hd, hiw, hih, hst, hteq.symm⟩

theorem decompose_shape (s : String) (w : Nat) (chars : List EffectCharacter)
    (hd : decompose s w = some chars) :
    ∃ wls, wrapLines w (splitlines s) = some wls ∧
      chars = decomposeFromWrapped wls := by
  unfold decompose at hd
  rw [Option.map_eq_some'] at hd
  obtain ⟨wls, hwls, hchars⟩ := hd
  exact ⟨wls, hwls, hchars.symm⟩

theorem max?_int_mem (l : List Int) (m : Int) (hm : l.max? = some m) : m ∈ l :=
  List.max?_mem (fun a b => max_choice a b) hm

/-- C7 counterexample: at terminal height 1 the construction for input `"A"`
succeeds and produces an output area with `top = 0` and `bottom = 1`,
violating `bottom ≤ top`. -/
theorem spec_C7_counterexample :
    (terminalInit "A" 5 1).map
        (fun t => (t.output_area.top, t.output_area.bottom)) = some (0, 1) ∧
      ¬ ((1 : Int) ≤ (0 : Int)) := by decide

/-- C7 (amended): for terminal height at least 2, every output area produced
by `Terminal.__init__` satisfies `bottom ≤ top` and `left ≤ right`, and a
subsequent render leaves the output area unchanged. -/
theorem spec_C7 (s : String) (w : Nat) (h : Int) (t : Terminal)
    (hh : 2 ≤ h) (ht : terminalInit s w h = some t) :
    t.output_area.bottom ≤ t.output_area.top ∧
      t.output_area.left ≤ t.output_area.right ∧
      (terminalRender t).map (fun t2 => t2.output_area) = some t.output_area := by
  obtain ⟨chars, iw, ihgt, st, hd, hiw, hih, hst, hteq⟩ :=
    terminalInit_unfold s w h t ht
  obtain ⟨wls, hwls, hde⟩ := decompose_shape s w chars hd
  subst hde
  have hih1 : 1 ≤ ihgt := by
    have hm := max?_int_mem _ ihgt hih
    rw [List.mem_map] at hm
    obtain ⟨ch, hch, heq⟩ := hm
    have := (decomposeFromWrapped_facts wls ch hch).2.2.2
    omega
  have hiw1 : 1 ≤ iw := by
    have hm := max?_int_mem _ iw hiw
    rw [List.mem_map] at hm
    obtain ⟨ch, hch, heq⟩ := hm
    have := (decomposeFromWrapped_facts wls ch hch).2.2.1
    omega
  have hrender : updateTerminalState t.output_area t.characters =
      some (blankRows t.output_area) := by
    apply stampAll_inactive
    intro ch hch
    rw [hteq] at hch
    simp only [List.mem_filter] at hch
    exact (decomposeFromWrapped_facts wls ch hch.1).1
  refine ⟨?_, ?_, ?_⟩
  · rw [hteq]
    show (1 : Int) ≤ min (h - 1) ihgt
    exact le_min (by omega) hih1
  · rw [hteq]
    show (1 : Int) ≤ iw
    exact hiw1
  · unfold terminalRender
    rw [hrender]
    rfl

/-- Witness for C7 on the input `"AB"` at width 80 and height 24. -/
theorem spec_C7_witness :
    terminalAB.output_area.bottom ≤ terminalAB.output_area.top ∧
      terminalAB.output_area.left ≤ terminalAB.output_area.right ∧
      (terminalRender terminalAB).map (fun t2 => t2.output_area) =
        some terminalAB.output_area :=
  spec_C7 "AB" 80 24 terminalAB (by decide) (by decide)

/-- C9: after construction every retained character's input row is at most
the output area's top (characters decomposed above it were discarded by the
construction-time filter — the input is truncated, not scrolled), and a
render changes neither the character set nor the output area. -/
theorem spec_C9 (s : String) (w : Nat) (h : Int) (t : Terminal)
    (chars : List EffectCharacter)
    (hd : decompose s w = some chars)
    (ht : terminalInit s w h = some t) :
    t.characters =
        chars.filter (fun ch => ch.input_coord.row ≤ t.output_area.top) ∧
      t.characters.all
        (fun ch => ch.input_coord.row ≤ t.output_area.top) = true ∧
      (terminalRender t).map (fun t2 => (t2.characters, t2.output_area)) =
        some (t.characters, t.output_area) := by
  obtain ⟨chars2, iw, ihgt, st, hd2, hiw, hih, hst, hteq⟩ :=
    terminalInit_unfold s w h t ht
  have hceq : chars2 = chars := by
    rw [hd] at hd2
    exact (Option.some.inj hd2).symm
  subst hceq
  obtain ⟨wls, hwls, hde⟩ := decompose_shape s w chars2 hd
  have hfilter : t.characters =
      chars2.filter (fun ch => ch.input_coord.row ≤ t.output_area.top) := by
    rw [hteq]
  have hall : t.characters.all
      (fun ch => ch.input_coord.row ≤ t.output_area.top) = true := by
    apply List.all_eq_true.mpr
    intro ch hch
    rw [hfilter] at hch
    exact (List.mem_filter.mp hch).2
  have hrender : updateTerminalState t.output_area t.characters =
      some (blankRows t.output_area) := by
    apply stampAll_inactive
    intro ch hch
    rw [hfilter] at hch
    have hch2 := (List.mem_filter.mp hch).1
    rw [hde] at hch2
    exact (decomposeFromWrapped_facts wls ch hch2).1
  refine ⟨hfilter, hall, ?_⟩
  unfold terminalRender
  rw [hrender]
  rfl

/-- Witness for C9 on the input `"AB"` at width 80 and height 24. -/
theorem spec_C9_witness :
    terminalAB.characters =
        charsAB.filter
          (fun ch => ch.input_coord.row ≤ terminalAB.output_area.top) ∧
      terminalAB.characters.all
        (fun ch => ch.input_coord.row ≤ terminalAB.output_area.top) = true ∧
      (terminalRender terminalAB).map
          (fun t2 => (t2.characters, t2.output_area)) =
        some (terminalAB.characters, terminalAB.output_area) :=
  spec_C9 "AB" 80 24 terminalAB charsAB (by decide) (by decide)

/-- C5 counterexample: in the loop of `BinaryPathEffect.run` the frame of a
step is rendered before that step's ticks run.  With a single active
character at `(1, 1)` and a tick that moves it one column right, the frame
emitted by the first step shows the character still at column 1, while a
render of the end-of-tick positions of that same step would show it at
column 2. -/
theorem spec_C5_counterexample :
    (runLoop tickRight areaRow [chA] 1)[0]? =
        some (updateTerminalState areaRow [chA]) ∧
      updateTerminalState areaRow [chA] = some [['A', ' ']] ∧
      updateTerminalState areaRow (tickAll tickRight [chA]) =
        some [[' ', 'A']] ∧
      (some [['A', ' ']] : Option (List (List Char))) ≠ some [[' ', 'A']] := by
  decide

/-- C5 (amended): in every step of the loop of `BinaryPathEffect.run` the
compositor renders before the characters tick, so the frame emitted at step
`k` reflects the positions reached at the end of step `k - 1` — the
start-of-step positions, after exactly `k` prior whole-step advances — not
the end-of-tick positions of step `k` itself. -/
theorem spec_C5 (tick : EffectCharacter → EffectCharacter) (area : OutputArea)
    (chars : List EffectCharacter) (n k : Nat) (hk : k < n) :
    (runLoop tick area chars n)[k]? =
      some (updateTerminalState area ((tickAll tick)^[k] chars)) := by
  induction n generalizing chars k with
  | zero => omega
  | succ n ih =>
    cases k with
    | zero => simp [runLoop]
    | succ k =>
      simp only [runLoop, List.getElem?_cons_succ]
      rw [ih (tickAll tick chars) k (by omega),
        Function.iterate_succ_apply]

/-- Witness for C5: the frame of the second step shows the positions after
exactly one whole-step advance. -/
theorem spec_C5_witness :
    (runLoop tickRight areaRow [chA] 2)[1]? =
      some (updateTerminalState areaRow ((tickAll tickRight)^[1] [chA])) :=
  spec_C5 tickRight areaRow [chA] 2 1 (by decide)

theorem pyIdx_nonneg (n : Nat) (i : Int) (h0 : 0 ≤ i) (h1 : i < (n : Int)) :
    pyIdx n i = some i.toNat := by
  unfold pyIdx
  rw [if_pos h0, if_pos h1]

theorem pyIdx_neg (n : Nat) (i : Int) (h0 : i < 0) (h1 : -(n : Int) ≤ i) :
    pyIdx n i = some (i + (n : Int)).toNat := by
  unfold pyIdx
  rw [if_neg (by omega), if_pos h1]

theorem pyIdx_none_high (n : Nat) (i : Int) (h1 : (n : Int) ≤ i) :
    pyIdx n i = none := by
  unfold pyIdx
  rw [if_pos (by omega), if_neg (by omega)]

theorem blankRows_dims (area : OutputArea) : dims area (blankRows area) := by
  constructor
  · simp [blankRows]
  · intro row hrow
    rw [(List.mem_replicate.mp hrow).2, List.length_replicate]

theorem cell_blank (area : OutputArea) (r c : Int) (hr1 : 1 ≤ r)
    (hr2 : r ≤ area.top) (hc1 : 1 ≤ c) (hc2 : c ≤ area.right) :
    cell (blankRows area) r c = some ' ' := by
  unfold cell blankRows
  rw [List.getElem?_replicate_of_lt (show (r - 1).toNat < area.top.toNat by omega)]
  simp only [Option.some_bind]
  rw [List.getElem?_replicate_of_lt (show (c - 1).toNat < area.right.toNat by omega)]

theorem getLast?_cons_ne {α : Type} (a : α) (l : List α) (h : l ≠ []) :
    (a :: l).getLast? = l.getLast? := by
  cases l with
  | nil => exact absurd rfl h
  | cons b t => exact List.getLast?_cons_cons

theorem stampOne_active (area : OutputArea) (rows : List (List Char))
    (ch : EffectCharacter) (hd : dims area rows) (ha : ch.is_active = true)
    (hb : inBounds area ch.current_coord) :
    ∃ rows2, stampOne rows ch = some rows2 ∧ dims area rows2 ∧
      ∀ r c, 1 ≤ r → r ≤ area.top → 1 ≤ c → c ≤ area.right →
        cell rows2 r c =
          if ch.current_coord.row = r ∧ ch.current_coord.column = c
          then some ch.symbol else cell rows r c := by
  obtain ⟨hlen, hrows⟩ := hd
  obtain ⟨hb1, hb2, hb3, hb4⟩ := hb
  have hki : pyIdx rows.length (ch.current_coord.row - 1) =
      some (ch.current_coord.row - 1).toNat :=
    pyIdx_nonneg _ _ (by omega) (by rw [hlen]; omega)
  have hkn : (ch.current_coord.row - 1).toNat < rows.length := by
    rw [hlen]; omega
  cases hrowget : rows[(ch.current_coord.row - 1).toNat]? with
  | none =>
    rw [List.getElem?_eq_none_iff] at hrowget
    omega
  | some row =>
  have hrowlen : row.length = area.right.toNat :=
    hrows row (List.getElem?_mem hrowget)
  have hji : pyIdx row.length (ch.current_coord.column - 1) =
      some (ch.current_coord.column - 1).toNat :=
    pyIdx_nonneg _ _ (by omega) (by rw [hrowlen]; omega)
  have hjn : (ch.current_coord.column - 1).toNat < row.length := by
    rw [hrowlen]; omega
  refine ⟨rows.set (ch.current_coord.row - 1).toNat
      (row.set (ch.current_coord.column - 1).toNat ch.symbol), ?_, ?_, ?_⟩
  · unfold stampOne
    rw [if_pos ha]
    unfold pySet2 pySet
    rw [hki]
    simp only [Option.some_bind]
    rw [hrowget]
    simp only [Option.some_bind]
    rw [hji]
    rfl
  · constructor
    · rw [List.length_set]
      exact hlen
    · intro row2 hrow2
      rcases List.mem_or_eq_of_mem_set hrow2 with h | h
      · exact hrows row2 h
      · rw [h, List.length_set]
        exact hrowlen
  · intro r c hr1 hr2 hcc1 hcc2
    unfold cell
    by_cases hreq : ch.current_coord.row = r
    · have hkk : (r - 1).toNat = (ch.current_coord.row - 1).toNat := by omega
      rw [hkk, List.getElem?_set_self (by omega)]
      simp only [Option.some_bind]
      by_cases hceq : ch.current_coord.column = c
      · have hjj : (c - 1).toNat = (ch.current_coord.column - 1).toNat := by omega
        rw [hjj, List.getElem?_set_self (by omega)]
        rw [if_pos ⟨hreq, hceq⟩]
      · have hjj : (ch.current_coord.column - 1).toNat ≠ (c - 1).toNat := by omega
        rw [List.getElem?_set_ne hjj]
        rw [if_neg (fun hand => hceq hand.2)]
        rw [hrowget]
        rfl
    · have hkk : (ch.current_coord.row - 1).toNat ≠ (r - 1).toNat := by omega
      rw [List.getElem?_set_ne hkk]
      rw [if_neg (fun hand => hreq hand.1)]

theorem stampAll_spec (area : OutputArea) :
    ∀ (chars : List EffectCharacter) (rows : List (List Char)),
      dims area rows →
      (∀ ch ∈ chars, ch.is_active = true → inBounds area ch.current_coord) →
      ∃ rows2, stampAll rows chars = some rows2 ∧ dims area rows2 ∧
        ∀ r c, 1 ≤ r → r ≤ area.top → 1 ≤ c → c ≤ area.right →
          cell rows2 r c =
            (match lastAt chars r c with
              | some ch2 => some ch2.symbol
              | none => cell rows r c) := by
  intro chars
  induction chars with
  | nil =>
    intro rows hd _
    exact ⟨rows, rfl, hd, fun r c _ _ _ _ => rfl⟩
  | cons ch rest ih =>
    intro rows hd hin
    by_cases ha : ch.is_active = true
    · obtain ⟨rows1, h1, hd1, hc1⟩ :=
        stampOne_active area rows ch hd ha (hin ch (List.mem_cons_self ch rest) ha)
      obtain ⟨rows2, h2, hd2, hc2⟩ := ih rows1 hd1
        (fun c2 hc2 hac => hin c2 (List.mem_cons_of_mem ch hc2) hac)
      refine ⟨rows2, ?_, hd2, ?_⟩
      · simp only [stampAll, h1, Option.some_bind, h2]
      · intro r c hr1 hr2 hcc1 hcc2
        rw [hc2 r c hr1 hr2 hcc1 hcc2]
        cases hlast : lastAt rest r c with
        | some ch2 =>
          have hne : rest.filter (fun ch3 =>
              ch3.is_active && decide (ch3.current_coord.row = r) &&
                decide (ch3.current_coord.column = c)) ≠ [] := by
            intro hnil
            unfold lastAt at hlast
            rw [hnil] at hlast
            cases hlast
          have heq : lastAt (ch :: rest) r c = some ch2 := by
            unfold lastAt at hlast ⊢
            rw [List.filter_cons]
            split
            · rw [getLast?_cons_ne _ _ hne]
              exact hlast
            · exact hlast
          rw [heq]
        | none =>
          have hfil : rest.filter (fun ch3 =>
              ch3.is_active && decide (ch3.current_coord.row = r) &&
                decide (ch3.current_coord.column = c)) = [] := by
            unfold lastAt at hlast
            exact List.getLast?_eq_none_iff.mp hlast
          show cell rows1 r c = _
          rw [hc1 r c hr1 hr2 hcc1 hcc2]
          unfold lastAt
          rw [List.filter_cons, hfil]
          by_cases hcond : ch.current_coord.row = r ∧ ch.current_coord.column = c
          · rw [if_pos hcond]
            have hbp : (ch.is_active && decide (ch.current_coord.row = r) &&
                decide (ch.current_coord.column = c)) = true := by
              rw [ha, decide_eq_true hcond.1, decide_eq_true hcond.2]
              rfl
            rw [if_pos hbp]
            rfl
          · rw [if_neg hcond]
            have hbp : ¬ ((ch.is_active && decide (ch.current_coord.row = r) &&
                decide (ch.current_coord.column = c)) = true) := by
              simp only [Bool.and_eq_true, decide_eq_true_eq]
              intro hand
              exact hcond ⟨hand.1.2, hand.2⟩
            rw [if_neg hbp]
            rfl
    · have haf : ch.is_active = false := by
        revert ha
        cases ch.is_active <;> simp
      have h1 : stampOne rows ch = some rows := by
        unfold stampOne
        rw [haf]
        simp
      obtain ⟨rows2, h2, hd2, hc2⟩ := ih rows hd
        (fun c2 hc2 hac => hin c2 (List.mem_cons_of_mem ch hc2) hac)
      refine ⟨rows2, ?_, hd2, ?_⟩
      · simp only [stampAll, h1, Option.some_bind, h2]
      · intro r c hr1 hr2 hcc1 hcc2
        rw [hc2 r c hr1 hr2 hcc1 hcc2]
        unfold lastAt
        rw [List.filter_cons]
        have hbp : ¬ ((ch.is_active && decide (ch.current_coord.row = r) &&
            decide (ch.current_coord.column = c)) = true) := by
          rw [haf]
          simp
        rw [if_neg hbp]

/-- C1 counterexample: with two active characters at the same cell, the one
with the lower layer that is stamped later wins — the displayed symbol is
`B` (layer 0, stamped second), not `A` (layer 1, stamped first), so the
highest layer does not win. -/
theorem spec_C1_counterexample :
    updateTerminalState areaOne [chA, chB] = some [['B']] ∧
      chA.is_active = true ∧ chB.is_active = true ∧
      chA.current_coord = chB.current_coord ∧
      chB.layer < chA.layer ∧ chB.symbol ≠ chA.symbol := by decide

/-- C1 (amended): when two or more active characters occupy the same cell of
the output area, the symbol displayed there is that of the most recently
stamped one — the last such character in the stamping order of
`Terminal._update_terminal_state` — regardless of layer; an empty cell
displays a space. -/
theorem spec_C1 (area : OutputArea) (chars : List EffectCharacter) (r c : Int)
    (hin : ∀ ch ∈ chars, ch.is_active = true → inBounds area ch.current_coord)
    (hr1 : 1 ≤ r) (hr2 : r ≤ area.top) (hc1 : 1 ≤ c) (hc2 : c ≤ area.right) :
    cellOf (updateTerminalState area chars) r c =
      some (((lastAt chars r c).map (fun ch => ch.symbol)).getD ' ') := by
  obtain ⟨rows2, h1, _, h3⟩ :=
    stampAll_spec area chars (blankRows area) (blankRows_dims area) hin
  unfold updateTerminalState cellOf
  rw [h1]
  simp only [Option.some_bind]
  rw [h3 r c hr1 hr2 hc1 hc2]
  cases lastAt chars r c with
  | none => exact cell_blank area r c hr1 hr2 hc1 hc2
  | some ch2 => rfl

/-- Witness for C1 at a one-cell area with two colliding active characters:
the rendered symbol is that of the last-stamped character `chB`. -/
theorem spec_C1_witness :
    cellOf (updateTerminalState areaOne [chA, chB]) 1 1 =
      some (((lastAt [chA, chB] 1 1).map (fun ch => ch.symbol)).getD ' ') :=
  spec_C1 areaOne [chA, chB] 1 1 (by decide) (by decide) (by decide) (by decide)
    (by decide)

/-- C4 counterexample: an active character at the transient coordinate
`(0, 0)` — outside the output area — does not fail, but it does alter a cell
inside the buffer: Python's negative indexing wraps `-1` to the last entry,
so the buffer differs from the blank render. -/
theorem spec_C4_counterexample :
    ¬ inBounds areaOne ch00.current_coord ∧
      updateTerminalState areaOne [ch00] = some [['X']] ∧
      updateTerminalState areaOne [] = some [[' ']] ∧
      ([['X']] : List (List Char)) ≠ [[' ']] := by decide

/-- C4 (amended): an active character at coordinate `(0, 0)` renders without
failure but its symbol lands in the cell at the output area's top row and
rightmost column (Python indexing wraps `-1` around), while an active
character whose row exceeds the area's top makes the render fail with an
index error. -/
theorem spec_C4 (area : OutputArea) (ch : EffectCharacter)
    (htop : 1 ≤ area.top) (hright : 1 ≤ area.right) (ha : ch.is_active = true) :
    (ch.current_coord = ⟨0, 0⟩ →
      cellOf (updateTerminalState area [ch]) area.top area.right =
        some ch.symbol) ∧
    (area.top < ch.current_coord.row → updateTerminalState area [ch] = none) := by
  constructor
  · intro hco
    have hlen : (blankRows area).length = area.top.toNat := by
      simp [blankRows]
    have hco1 : ch.current_coord.row = 0 := by rw [hco]
    have hco2 : ch.current_coord.column = 0 := by rw [hco]
    have hstamp : stampOne (blankRows area) ch =
        some ((blankRows area).set (area.top.toNat - 1)
          ((List.replicate area.right.toNat ' ').set (area.right.toNat - 1)
            ch.symbol)) := by
      unfold stampOne
      rw [if_pos ha]
      unfold pySet2 pySet
      rw [hco1, hco2]
      rw [hlen]
      rw [pyIdx_neg area.top.toNat ((0 : Int) - 1) (by omega) (by omega)]
      simp only [Option.some_bind]
      have hk : ((0 : Int) - 1 + (area.top.toNat : Int)).toNat =
          area.top.toNat - 1 := by omega
      rw [hk]
      rw [show (blankRows area)[area.top.toNat - 1]? =
          some (List.replicate area.right.toNat ' ') from
        List.getElem?_replicate_of_lt (by omega)]
      simp only [Option.some_bind, List.length_replicate]
      rw [pyIdx_neg area.right.toNat ((0 : Int) - 1) (by omega) (by omega)]
      have hj : ((0 : Int) - 1 + (area.right.toNat : Int)).toNat =
          area.right.toNat - 1 := by omega
      rw [hj]
      rfl
    unfold updateTerminalState stampAll
    rw [hstamp]
    simp only [Option.some_bind]
    show cellOf (stampAll _ []) area.top area.right = some ch.symbol
    unfold stampAll cellOf cell
    simp only [Option.some_bind]
    have hkk : (area.top - 1).toNat = area.top.toNat - 1 := by omega
    rw [hkk, List.getElem?_set_self (by rw [hlen]; omega)]
    simp only [Option.some_bind]
    have hjj : (area.right - 1).toNat = area.right.toNat - 1 := by omega
    rw [hjj, List.getElem?_set_self (by rw [List.length_replicate]; omega)]
  · intro hrow
    have hnone : stampOne (blankRows area) ch = none := by
      unfold stampOne
      rw [if_pos ha]
      unfold pySet2
      rw [show (blankRows area).length = area.top.toNat from by simp [blankRows]]
      rw [pyIdx_none_high area.top.toNat (ch.current_coord.row - 1) (by omega)]
      rfl
    unfold updateTerminalState stampAll
    rw [hnone]
    rfl

/-- Witness for C4 on a 2-row, 3-column area: the `(0, 0)` character lands at
cell `(2, 3)` and the character at row 3 makes the render fail. -/
theorem spec_C4_witness :
    cellOf (updateTerminalState { top := 2, right := 3 } [ch00]) 2 3 =
        some 'X' ∧
      updateTerminalState { top := 2, right := 3 } [chHigh] = none :=
  ⟨(spec_C4 { top := 2, right := 3 } ch00 (by decide) (by decide)
      (by decide)).1 (by decide),
    (spec_C4 { top := 2, right := 3 } chHigh (by decide) (by decide)
      (by decide)).2 (by decide)⟩

end TTE
